import Mathlib

set_option maxRecDepth 100000

/- Verification of the SAT-based Sudoku solver (sudoku_solver.py).

   The constraint-encoding core of solve_sudoku (the variable-index mapping
   var, clause rules 1-6, and the model-decoding loop) is embedded below as
   executable Lean definitions.  The external SAT engine (pysat glucose3) is
   not part of the repository; following the solver-adapter interface it is
   modelled as an oracle parameter whose contract is that any model it
   returns satisfies the formula it was given. -/

/-- Embeds the nested function var (lines 28-29):
var(r, c, v) = r * 81 + c * 9 + v + 1.
The Python function is plain integer arithmetic with no range check, so it
is embedded over Int, total on all inputs. -/
def var (r c v : Int) : Int := r * 81 + c * 9 + v + 1

/-- Embeds the inverse index computation of the decoding loop (lines 93-96):
lit -= 1; r = lit // 81; c = (lit % 81) // 9; v = lit % 9.
It is applied by the code only to positive literals (line 92), where Nat
division and remainder coincide with Python floor division and mod. -/
def unvar (lit : Int) : Nat × Nat × Nat :=
  ((lit.toNat - 1) / 81, (((lit.toNat - 1) % 81) / 9, (lit.toNat - 1) % 9))

/-- A Python 9x9 grid: a list of rows of integers (0 = empty, 1-9 = clue). -/
abbrev Grid := List (List Int)

/-- Reading grid[r][c], total version used where both indices are in range. -/
def cell (g : Grid) (r c : Nat) : Int := (g.getD r []).getD c 0

/-- Writing solution[r][c] = x on a list-of-lists grid. -/
def setCell (g : Grid) (r c : Nat) (x : Int) : Grid :=
  g.set r ((g.getD r []).set c x)

/-- The input contract stated in the docstring and spec: a 9x9 grid. -/
def grid9x9 (g : Grid) : Prop := g.length = 9 ∧ ∀ row ∈ g, row.length = 9

/-- All cell values lie in [0, 9]. -/
def gridValsOk (g : Grid) : Prop := ∀ row ∈ g, ∀ x ∈ row, 0 ≤ x ∧ x ≤ 9

instance (g : Grid) : Decidable (grid9x9 g) := by
  unfold grid9x9
  exact inferInstance

instance (g : Grid) : Decidable (gridValsOk g) := by
  unfold gridValsOk
  exact inferInstance

/-- Rule 1 (lines 33-36): each cell contains at least one value. -/
def rule1 : List (List Int) :=
  (List.range 9).flatMap fun r : Nat => (List.range 9).map fun c : Nat =>
    (List.range 9).map fun v : Nat => var r c v

/-- Rule 2 (lines 38-43): each cell contains at most one value. -/
def rule2 : List (List Int) :=
  (List.range 9).flatMap fun r : Nat => (List.range 9).flatMap fun c : Nat =>
    (List.range 9).flatMap fun v1 : Nat =>
      (List.range' (v1 + 1) (8 - v1)).map fun v2 : Nat =>
        [-var r c v1, -var r c v2]

/-- Rule 3 (lines 45-51): each row contains each value exactly once. -/
def rule3 : List (List Int) :=
  (List.range 9).flatMap fun r : Nat => (List.range 9).flatMap fun v : Nat =>
    ((List.range 9).map fun c : Nat => var r c v) ::
      (List.range 9).flatMap fun c1 : Nat =>
        (List.range' (c1 + 1) (8 - c1)).map fun c2 : Nat =>
          [-var r c1 v, -var r c2 v]

/-- Rule 4 (lines 53-59): each column contains each value exactly once. -/
def rule4 : List (List Int) :=
  (List.range 9).flatMap fun c : Nat => (List.range 9).flatMap fun v : Nat =>
    ((List.range 9).map fun r : Nat => var r c v) ::
      (List.range 9).flatMap fun r1 : Nat =>
        (List.range' (r1 + 1) (8 - r1)).map fun r2 : Nat =>
          [-var r1 c v, -var r2 c v]

/-- The nine cell-variables of box (box_r, box_c) for value v, in the order
the source builds the list cells (lines 65-68). -/
def boxCells (br bc v : Nat) : List Int :=
  (List.range' (br * 3) 3).flatMap fun r : Nat =>
    (List.range' (bc * 3) 3).map fun c : Nat => var r c v

/-- Rule 5 (lines 61-73): each 3x3 box contains each value exactly once. -/
def rule5 : List (List Int) :=
  (List.range 3).flatMap fun br => (List.range 3).flatMap fun bc =>
    (List.range 9).flatMap fun v =>
      boxCells br bc v ::
        (List.range (boxCells br bc v).length).flatMap fun i =>
          (List.range' (i + 1) ((boxCells br bc v).length - (i + 1))).map fun j =>
            [-(boxCells br bc v).getD i 0, -(boxCells br bc v).getD j 0]

/-- The 81 (r, c) positions visited by the clue loop of rule 6 (lines 76-77),
in iteration order. -/
def allPositions : List (Nat × Nat) :=
  (List.range 9).flatMap fun r => (List.range 9).map fun c => (r, c)

/-- One iteration of the clue loop of rule 6 (lines 78-80): if grid[r][c] is
non-zero, append the unit clause [var(r, c, grid[r][c] - 1)]. -/
def rule6Go (g : Grid) (acc : List (List Int)) (rc : Nat × Nat) : List (List Int) :=
  if cell g rc.1 rc.2 ≠ 0 then acc ++ [[var rc.1 rc.2 (cell g rc.1 rc.2 - 1)]]
  else acc

/-- Rule 6 (lines 75-80): unit clauses fixing the given clues. -/
def rule6 (g : Grid) : List (List Int) := allPositions.foldl (rule6Go g) []

/-- The clauses of rules 1-5, which do not depend on the grid. -/
def rules1to5 : List (List Int) := rule1 ++ rule2 ++ rule3 ++ rule4 ++ rule5

/-- The full CNF formula built by solve_sudoku (lines 31-80): rules 1-5
followed by the clue unit clauses of rule 6. -/
def sudokuCNF (g : Grid) : List (List Int) := rules1to5 ++ rule6 g

/-- Message of a Python IndexError on list subscripting. -/
def indexErrorMsg : String := "IndexError: list index out of range"

/-- Reading grid[r][c] as Python does it: raises IndexError when either
index is out of range. -/
def cellE (g : Grid) (r c : Nat) : Except String Int :=
  match g[r]? with
  | none => Except.error indexErrorMsg
  | some row =>
    match row[c]? with
    | none => Except.error indexErrorMsg
    | some x => Except.ok x

/-- One iteration of the clue loop with Python exception behaviour: the
subscript grid[r][c] may raise. -/
def rule6StepE (g : Grid) (acc : List (List Int)) (rc : Nat × Nat) :
    Except String (List (List Int)) := do
  let x ← cellE g rc.1 rc.2
  if x ≠ 0 then pure (acc ++ [[var rc.1 rc.2 (x - 1)]]) else pure acc

/-- The clue loop of rule 6 with Python exception behaviour: the first
out-of-range subscript aborts the whole encoding. -/
def rule6E (g : Grid) : Except String (List (List Int)) :=
  allPositions.foldlM (rule6StepE g) []

/-- The whole encoder with Python exception behaviour: solve_sudoku builds
rules 1-5 (which never touch the grid) and then runs the clue loop; an
IndexError there propagates out and no formula is produced. -/
def encodeE (g : Grid) : Except String (List (List Int)) := do
  let r6 ← rule6E g
  pure (rules1to5 ++ r6)

/-- Truth of a signed literal under an assignment of the variables
(assignment = truth value for each positive variable id). -/
def litSat (a : Nat → Bool) (lit : Int) : Bool :=
  if 0 < lit then a lit.toNat else !a (-lit).toNat

/-- A CNF formula is satisfied when every clause has a true literal. -/
def satCNF (a : Nat → Bool) (f : List (List Int)) : Bool :=
  f.all fun cl => cl.any fun lit => litSat a lit

/-- The truth value the assignment gives to the variable of triple
(r, c, v); abbreviation used throughout the proofs. -/
def holdsAt (a : Nat → Bool) (r c v : Nat) : Bool :=
  a (var r c v).toNat

/-- The signed literal for variable id i + 1 under an assignment. -/
def modelLit (a : Nat → Bool) (i : Nat) : Int :=
  if a (i + 1) then ((i + 1 : Nat) : Int) else -((i + 1 : Nat) : Int)

/-- The literal list returned by solver.get_model() for an assignment:
one signed literal per variable id 1..729, in increasing id order. -/
def modelOf (a : Nat → Bool) : List Int :=
  (List.range 729).map (modelLit a)

/-- One iteration of the decoding loop (lines 91-97): a positive literal is
mapped back to (r, c, v) and solution[r][c] = v + 1 is written. -/
def decodeStep (sol : Grid) (lit : Int) : Grid :=
  if 0 < lit then
    setCell sol (unvar lit).1 (unvar lit).2.1 (((unvar lit).2.2 + 1 : Nat) : Int)
  else sol

/-- The fresh solution grid (line 90): solution = [[0]*9 for _ in range(9)]. -/
def emptySol : Grid := List.replicate 9 (List.replicate 9 (0 : Int))

/-- The decoding loop (lines 90-97) run over a model literal list. -/
def decode (model : List Int) : Grid := model.foldl decodeStep emptySol

/-- State-passing embedding of the decoding loop in which the state carries
both Python locals (grid, solution): the loop body writes only the solution
component, mirroring that line 97 assigns to solution, never to grid. -/
def decodeStepWithInput (st : Grid × Grid) (lit : Int) : Grid × Grid :=
  (st.1, decodeStep st.2 lit)

/-- The decoding phase of solve_sudoku with the input grid threaded through
as explicit state. -/
def runDecode (g : Grid) (model : List Int) : Grid × Grid :=
  model.foldl decodeStepWithInput (g, emptySol)

/-- Soundness contract of the solver adapter (spec section 4.3/6): whenever
the engine reports Satisfiable with a model, that model satisfies the
formula it was given. -/
def oracleSound (oracle : List (List Int) → Option (Nat → Bool)) : Prop :=
  ∀ f a, oracle f = some a → satCNF a f = true

/-- solve_sudoku (lines 14-101) with the external engine as an oracle: build
the CNF, ask the engine, decode its model on success, return none on UNSAT. -/
def solveSudoku (oracle : List (List Int) → Option (Nat → Bool)) (g : Grid) :
    Option Grid :=
  match oracle (sudokuCNF g) with
  | some a => some (decode (modelOf a))
  | none => none

/-- The solved-grid property claimed for decoded models: every row, column
and 3x3 box holds each of the digits 1..9 exactly once. -/
def validSolution (g : Grid) : Prop :=
  (∀ r < 9, ∀ v : Nat, v < 9 →
    ((List.range 9).countP fun c => decide (cell g r c = (v : Int) + 1)) = 1) ∧
  (∀ c < 9, ∀ v : Nat, v < 9 →
    ((List.range 9).countP fun r => decide (cell g r c = (v : Int) + 1)) = 1) ∧
  (∀ br < 3, ∀ bc < 3, ∀ v : Nat, v < 9 →
    ((List.range 9).countP fun k =>
      decide (cell g (br * 3 + k / 3) (bc * 3 + k % 3) = (v : Int) + 1)) = 1)

/-- Every originally non-zero clue cell of the input keeps its value in the
solution. -/
def cluesKept (g sol : Grid) : Prop :=
  ∀ r < 9, ∀ c < 9, cell g r c ≠ 0 → cell sol r c = cell g r c

/-- Number of non-zero entries among the 81 cells visited by rule 6. -/
def numNonZero (g : Grid) : Nat :=
  allPositions.countP fun rc => decide (cell g rc.1 rc.2 ≠ 0)

/-- All 729 forward-mapping values var(r, c, v) in nested loop order. -/
def allVarIds : List Int :=
  (List.range 9).flatMap fun r : Nat => (List.range 9).flatMap fun c : Nat =>
    (List.range 9).map fun v : Nat => var r c v

/-- The all-zero (empty) puzzle. -/
def emptyGrid : Grid := List.replicate 9 (List.replicate 9 (0 : Int))

/-- The assignment encoding the valid complete grid whose cell (r, c) holds
((r * 3 + r / 3 + c) % 9) + 1; used as a concrete satisfying model. -/
def baseAssign : Nat → Bool := fun n =>
  decide (1 ≤ n ∧ n ≤ 729 ∧
    ((n - 1) / 81 * 3 + (n - 1) / 81 / 3 + (n - 1) % 81 / 9) % 9 = (n - 1) % 9)

/-- A malformed 9x9 grid: cell (0, 0) holds 10, outside [0, 9]. -/
def gBad : Grid :=
  ((10 : Int) :: List.replicate 8 0) :: List.replicate 8 (List.replicate 9 (0 : Int))

/-- A malformed grid with only 8 rows. -/
def gShort : Grid := List.replicate 8 (List.replicate 9 (0 : Int))

/-- A 9x9 grid with two 5-clues in row 0 (columns 0 and 1). -/
def gDup : Grid :=
  ((5 : Int) :: 5 :: List.replicate 7 0) ::
    List.replicate 8 (List.replicate 9 (0 : Int))

/-- Theorems begin here. -/

theorem toNat_var (r c v : Nat) :
    (var r c v).toNat = r * 81 + c * 9 + v + 1 := by
  simp only [var]
  omega

theorem var_pos (r c v : Nat) : 0 < var (r : Int) c v := by
  simp only [var]
  omega

/-- Claim C2: the inverse mapping (z = id - 1; row = z div 81;
col = (z mod 81) div 9; value = z mod 9) applied to the forward mapping
id(row, col, value) = row*81 + col*9 + value + 1 returns the original
triple, for all row, col, value in [0,8]. -/
theorem c2_round_trip (r c v : Nat) (hr : r < 9) (hc : c < 9) (hv : v < 9) :
    unvar (var r c v) = (r, c, v) := by
  simp only [unvar, var, Prod.mk.injEq]
  omega

/-- Witness for C2 at the concrete triple (4, 5, 6). -/
theorem c2_round_trip_witness : unvar (var 4 5 6) = (4, 5, 6) :=
  c2_round_trip 4 5 6 (by decide) (by decide) (by decide)

/-- Counterexample to claim C7: the out-of-range input (0, 0, 9) is not
rejected; var returns the ordinary identifier 10, which is the identifier
of the in-range triple (0, 1, 0). -/
theorem c7_counterexample : var 0 0 9 = 10 ∧ var 0 1 0 = 10 := by decide

/-- Claim C7 (amended): var performs no range check: it returns
row*81 + col*9 + value + 1 for every input, and consequently an
out-of-range value aliases the identifier of another triple:
var(r, c, v + 9) = var(r, c + 1, v) for all r, c, v. -/
theorem c7_no_range_check (r c v : Int) :
    var r c v = r * 81 + c * 9 + v + 1 ∧ var r c (v + 9) = var r (c + 1) v := by
  constructor
  · rfl
  · simp only [var]
    ring

/-- Claim C8: the forward mapping applied to all 729 triples with
row, col, value in [0,8] (in nested loop order) produces exactly the
integers 1..729 with no repeats. -/
theorem c8_bijection :
    allVarIds = ((List.range 729).map fun n : Nat => (n : Int) + 1) ∧
      allVarIds.Nodup := by
  have h : allVarIds = (List.range 729).map fun n : Nat => (n : Int) + 1 := by
    decide
  refine ⟨h, ?_⟩
  rw [h]
  have hinj : Function.Injective (fun n : Nat => (n : Int) + 1) := by
    intro a b hab
    simp only at hab
    omega
  exact (List.nodup_range 729).map hinj

theorem getD_mem_of_lt {α : Type} (l : List α) (n : Nat) (d : α)
    (h : n < l.length) : l.getD n d ∈ l := by
  rw [List.getD_eq_getElem?_getD, List.getElem?_eq_getElem h]
  exact List.getElem_mem h

theorem cell_setCell_self (g : Grid) (r c : Nat) (x : Int)
    (hr : r < g.length) (hc : c < (g.getD r []).length) :
    cell (setCell g r c x) r c = x := by
  unfold cell setCell
  set row := g.getD r []
  have h1 : (g.set r (row.set c x)).getD r [] = row.set c x := by
    rw [List.getD_eq_getElem?_getD, List.getElem?_set_self (by simpa using hr)]
    rfl
  rw [h1, List.getD_eq_getElem?_getD, List.getElem?_set_self (by simpa using hc)]
  rfl

theorem cell_setCell_other (g : Grid) (r c r2 c2 : Nat) (x : Int)
    (h : r ≠ r2 ∨ c ≠ c2) :
    cell (setCell g r c x) r2 c2 = cell g r2 c2 := by
  unfold cell setCell
  set row := g.getD r []
  by_cases hrr : r = r2
  · subst hrr
    have hcc : c ≠ c2 := h.resolve_left fun hcon => hcon rfl
    by_cases hlen : r < g.length
    · have h1 : (g.set r (row.set c x)).getD r [] = row.set c x := by
        rw [List.getD_eq_getElem?_getD, List.getElem?_set_self (by simpa using hlen)]
        rfl
      rw [h1, List.getD_eq_getElem?_getD, List.getElem?_set_ne hcc,
        ← List.getD_eq_getElem?_getD]
    · rw [List.set_eq_of_length_le (by omega)]
  · have h1 : (g.set r (row.set c x)).getD r2 [] = g.getD r2 [] := by
      rw [List.getD_eq_getElem?_getD, List.getElem?_set_ne hrr,
        ← List.getD_eq_getElem?_getD]
    rw [h1]

theorem countP_one_of_unique {α : Type} (l : List α) (p : α → Bool) (a : α)
    (hnd : l.Nodup) (ha : a ∈ l) (hpa : p a = true)
    (hu : ∀ x ∈ l, p x = true → x = a) :
    l.countP p = 1 := by
  induction l with
  | nil => cases ha
  | cons b t ih =>
    rw [List.countP_cons]
    rw [List.nodup_cons] at hnd
    rcases List.mem_cons.mp ha with rfl | hat
    · rw [if_pos hpa]
      have ht : t.countP p = 0 := by
        rw [List.countP_eq_zero]
        intro x hx hpx
        exact hnd.1 ((hu x (List.mem_cons_of_mem _ hx) hpx) ▸ hx)
      omega
    · have hpb : p b = false := by
        by_contra hcon
        have : b = a := hu b (List.mem_cons_self b t) (by
          cases hb : p b
          · exact absurd hb hcon
          · rfl)
        exact hnd.1 (this ▸ hat)
      rw [if_neg (by simp [hpb])]
      rw [ih hnd.2 hat (fun x hx hpx => hu x (List.mem_cons_of_mem _ hx) hpx)]

theorem runDecode_foldl (L : List Int) (g s : Grid) :
    L.foldl decodeStepWithInput (g, s) = (g, L.foldl decodeStep s) := by
  induction L generalizing s with
  | nil => rfl
  | cons lit t ih => rw [List.foldl_cons, List.foldl_cons]; exact ih _

/-- Claim C9: the solve operation never mutates its input grid: threading
the input grid through the decoding loop as explicit state, every iteration
writes only the freshly constructed solution component, so after decoding
the grid component is unchanged and the returned solution is the separately
built decode of the model. -/
theorem c9_no_input_mutation (g : Grid) (model : List Int) :
    (runDecode g model).1 = g ∧ (runDecode g model).2 = decode model := by
  unfold runDecode decode
  rw [runDecode_foldl]
  exact ⟨rfl, rfl⟩

theorem rule6_foldl_length (g : Grid) (L : List (Nat × Nat))
    (acc : List (List Int)) :
    (L.foldl (rule6Go g) acc).length
      = acc.length + L.countP fun rc => decide (cell g rc.1 rc.2 ≠ 0) := by
  induction L generalizing acc with
  | nil => simp
  | cons p t ih =>
    rw [List.foldl_cons, ih, List.countP_cons]
    by_cases h : cell g p.1 p.2 ≠ 0
    · simp [rule6Go, h]
      omega
    · simp [rule6Go, h]

theorem countP_flatMap {α β : Type} (L : List α) (f : α → List β)
    (p : β → Bool) :
    (L.flatMap f).countP p = (L.map fun a => (f a).countP p).sum := by
  induction L with
  | nil => rfl
  | cons a t ih => simp [List.flatMap_cons, List.countP_append, ih]

theorem countP_range_getD (row : List Int) (q : Int → Bool) :
    ((List.range row.length).countP fun c => q (row.getD c 0))
      = row.countP q := by
  induction row with
  | nil => rfl
  | cons x t ih =>
    rw [List.length_cons, List.range_succ_eq_map, List.countP_cons,
      List.countP_map]
    have hcomp : ((fun c => q ((x :: t).getD c 0)) ∘ Nat.succ)
        = fun c => q (t.getD c 0) := by
      funext n
      simp [Function.comp, List.getD_cons_succ]
    rw [hcomp, ih, List.countP_cons]
    simp [List.getD_cons_zero]

theorem map_range_getD {β : Type} (g : List (List Int)) (f : List Int → β) :
    ((List.range g.length).map fun r => f (g.getD r [])) = g.map f := by
  induction g with
  | nil => rfl
  | cons row t ih =>
    rw [List.length_cons, List.range_succ_eq_map, List.map_cons, List.map_map]
    have hcomp : ((fun r => f ((row :: t).getD r [])) ∘ Nat.succ)
        = fun r => f (t.getD r []) := by
      funext n
      simp [Function.comp, List.getD_cons_succ]
    rw [hcomp, ih]
    simp [List.getD_cons_zero]

theorem rules1to5_length : rules1to5.length = 11988 := by
  simp only [rules1to5, List.length_append, rule1, rule2, rule3, rule4, rule5,
    List.length_flatMap, List.length_map, List.length_cons]
  decide

/-- Claim C3: the clauses of rules 1-5 number exactly
81 + 81*36 + 3 * (9*9*(1+36)) = 11988, independent of the grid; rule 6 adds
one unit clause per non-zero cell, so a 9x9 grid yields 11988 plus its
number of non-zero cells. -/
theorem c3_clause_count (g : Grid) (h9 : grid9x9 g) :
    rules1to5.length = 11988 ∧
      (sudokuCNF g).length = 11988 + numNonZero g ∧
      numNonZero g = (g.map fun row => row.countP fun x => decide (x ≠ 0)).sum := by
  have h15 : rules1to5.length = 11988 := rules1to5_length
  refine ⟨h15, ?_, ?_⟩
  · rw [sudokuCNF, List.length_append, h15, rule6, rule6_foldl_length]
    simp [numNonZero]
  · obtain ⟨hg1, hg2⟩ := h9
    unfold numNonZero allPositions
    rw [countP_flatMap]
    have hrow : ∀ r < 9,
        (((List.range 9).map fun c => ((r : Nat), c)).countP
          fun rc => decide (cell g rc.1 rc.2 ≠ 0))
          = (g.getD r []).countP fun x => decide (x ≠ 0) := by
      intro r hr
      rw [List.countP_map]
      have hlen : (g.getD r []).length = 9 :=
        hg2 _ (getD_mem_of_lt g r [] (by omega))
      have : ((fun rc : Nat × Nat => decide (cell g rc.1 rc.2 ≠ 0))
          ∘ fun c => (r, c)) = fun c => decide ((g.getD r []).getD c 0 ≠ 0) := by
        funext c
        simp [Function.comp, cell]
      rw [this, ← hlen,
        countP_range_getD (g.getD r []) fun x => decide (x ≠ 0)]
    rw [List.map_congr_left fun r hr => hrow r (List.mem_range.mp hr)]
    have h9len : (9 : Nat) = g.length := hg1.symm
    rw [h9len, map_range_getD]

theorem allPositions_mem (r c : Nat) (hr : r < 9) (hc : c < 9) :
    (r, c) ∈ allPositions := by
  simp only [allPositions, List.mem_flatMap, List.mem_map, List.mem_range]
  exact ⟨r, hr, c, hc, rfl⟩

theorem allPositions_bounds (p : Nat × Nat) (hp : p ∈ allPositions) :
    p.1 < 9 ∧ p.2 < 9 := by
  obtain ⟨r, c⟩ := p
  simp only [allPositions, List.mem_flatMap, List.mem_map, List.mem_range] at hp
  obtain ⟨a, ha, b, hb, heq⟩ := hp
  cases heq
  exact ⟨ha, hb⟩

theorem rule6_foldl_mem (g : Grid) (L : List (Nat × Nat)) (acc : List (List Int))
    (cl : List Int) :
    cl ∈ L.foldl (rule6Go g) acc ↔
      cl ∈ acc ∨ ∃ p ∈ L, cell g p.1 p.2 ≠ 0 ∧
        cl = [var p.1 p.2 (cell g p.1 p.2 - 1)] := by
  induction L generalizing acc with
  | nil => simp
  | cons q t ih =>
    rw [List.foldl_cons, ih]
    by_cases h : cell g q.1 q.2 ≠ 0
    · simp only [rule6Go, if_pos h, List.mem_append, List.mem_singleton]
      constructor
      · rintro ((hacc | hcl) | ⟨p, hp, hnz, hcl⟩)
        · exact Or.inl hacc
        · exact Or.inr ⟨q, List.mem_cons_self q t, h, hcl⟩
        · exact Or.inr ⟨p, List.mem_cons_of_mem _ hp, hnz, hcl⟩
      · rintro (hacc | ⟨p, hp, hnz, hcl⟩)
        · exact Or.inl (Or.inl hacc)
        · rcases List.mem_cons.mp hp with rfl | hpt
          · exact Or.inl (Or.inr hcl)
          · exact Or.inr ⟨p, hpt, hnz, hcl⟩
    · simp only [rule6Go, if_neg h]
      constructor
      · rintro (hacc | ⟨p, hp, hnz, hcl⟩)
        · exact Or.inl hacc
        · exact Or.inr ⟨p, List.mem_cons_of_mem _ hp, hnz, hcl⟩
      · rintro (hacc | ⟨p, hp, hnz, hcl⟩)
        · exact Or.inl hacc
        · rcases List.mem_cons.mp hp with rfl | hpt
          · exact absurd hnz h
          · exact Or.inr ⟨p, hpt, hnz, hcl⟩

theorem mem_rule6 (g : Grid) (r c : Nat) (hr : r < 9) (hc : c < 9)
    (hnz : cell g r c ≠ 0) :
    [var r c (cell g r c - 1)] ∈ rule6 g := by
  rw [rule6, rule6_foldl_mem]
  exact Or.inr ⟨(r, c), allPositions_mem r c hr hc, hnz, rfl⟩

theorem rule6_mem_dest (g : Grid) (cl : List Int) (h : cl ∈ rule6 g) :
    ∃ r c, r < 9 ∧ c < 9 ∧ cell g r c ≠ 0 ∧
      cl = [var r c (cell g r c - 1)] := by
  rw [rule6, rule6_foldl_mem] at h
  rcases h with h | ⟨p, hp, hnz, hcl⟩
  · simp at h
  · obtain ⟨h1, h2⟩ := allPositions_bounds p hp
    exact ⟨p.1, p.2, h1, h2, hnz, hcl⟩

theorem cellE_ok (g : Grid) (r c : Nat) (hr : r < g.length)
    (hc : c < (g.getD r []).length) :
    cellE g r c = Except.ok (cell g r c) := by
  have h1 : g[r]? = some (g[r]) := List.getElem?_eq_getElem hr
  have hgd : g.getD r [] = g[r] := by
    rw [List.getD_eq_getElem?_getD, h1]
    rfl
  have hc2 : c < (g[r]).length := by
    rw [← hgd]
    exact hc
  have h2 : (g[r])[c]? = some ((g[r])[c]) := List.getElem?_eq_getElem hc2
  have hcell : cell g r c = (g[r])[c] := by
    unfold cell
    rw [hgd, List.getD_eq_getElem?_getD, h2]
    rfl
  simp only [cellE, h1, h2, hcell]

theorem rule6E_foldlM_ok (g : Grid) (L : List (Nat × Nat))
    (acc : List (List Int))
    (h : ∀ p ∈ L, cellE g p.1 p.2 = Except.ok (cell g p.1 p.2)) :
    L.foldlM (rule6StepE g) acc = Except.ok (L.foldl (rule6Go g) acc) := by
  induction L generalizing acc with
  | nil => rfl
  | cons q t ih =>
    rw [List.foldlM_cons, List.foldl_cons]
    have hq := h q (List.mem_cons_self q t)
    have hstep : rule6StepE g acc q = Except.ok (rule6Go g acc q) := by
      unfold rule6StepE rule6Go
      rw [hq]
      by_cases hnz : cell g q.1 q.2 = 0
      · simp [hnz, Bind.bind, Except.bind, Pure.pure, Except.pure]
      · simp [hnz, Bind.bind, Except.bind, Pure.pure, Except.pure]
    rw [hstep]
    exact ih _ fun p hp => h p (List.mem_cons_of_mem _ hp)

theorem encodeE_ok_of_9x9 (g : Grid) (h9 : grid9x9 g) :
    encodeE g = Except.ok (sudokuCNF g) := by
  obtain ⟨hg1, hg2⟩ := h9
  have h6 : rule6E g = Except.ok (rule6 g) := by
    unfold rule6E rule6
    apply rule6E_foldlM_ok
    intro p hp
    obtain ⟨h1, h2⟩ := allPositions_bounds p hp
    apply cellE_ok
    · omega
    · have := hg2 _ (getD_mem_of_lt g p.1 [] (by omega))
      omega
  unfold encodeE
  rw [h6]
  rfl

/-- Counterexample to claim C6: gBad is 9x9 but holds the out-of-range
value 10 at cell (0, 0); the encoder does not reject it: it produces the
complete formula (11988 rule 1-5 clauses plus one unit clause) without any
error. -/
theorem c6_counterexample :
    (¬ gridValsOk gBad) ∧ encodeE gBad = Except.ok (sudokuCNF gBad) ∧
      (sudokuCNF gBad).length = 11989 := by
  refine ⟨by decide, encodeE_ok_of_9x9 gBad (by decide), ?_⟩
  rw [sudokuCNF, List.length_append, rules1to5_length, rule6,
    rule6_foldl_length]
  decide

/-- Claim C6 (amended): the encoder performs no input validation: every
grid with 9 rows of 9 entries is encoded without error whatever its values
(a value outside [0,9] silently yields a unit clause on an aliased
variable id), and a grid with too few rows fails only with an IndexError
raised from the subscript inside the clue loop of rule 6 - there is no
prior validation and no descriptive error. -/
theorem c6_no_validation :
    (∀ g : Grid, grid9x9 g → encodeE g = Except.ok (sudokuCNF g)) ∧
      encodeE gShort = Except.error indexErrorMsg := by
  constructor
  · exact fun g h9 => encodeE_ok_of_9x9 g h9
  · rfl

/-- Witness for C6 (amended) at the concrete malformed grid gBad. -/
theorem c6_no_validation_witness :
    grid9x9 gBad ∧ encodeE gBad = Except.ok (sudokuCNF gBad) :=
  ⟨by decide, c6_no_validation.1 gBad (by decide)⟩

theorem litSat_pos_var (a : Nat → Bool) (r c v : Nat) :
    litSat a (var r c v) = holdsAt a r c v := by
  unfold litSat holdsAt
  rw [if_pos (var_pos r c v)]

theorem litSat_neg_var (a : Nat → Bool) (r c v : Nat) :
    litSat a (-var r c v) = !holdsAt a r c v := by
  unfold litSat holdsAt
  rw [if_neg (by have := var_pos r c v; omega), neg_neg]

theorem holdsAt_eq (a : Nat → Bool) (r c v : Nat) :
    holdsAt a r c v = a (r * 81 + c * 9 + v + 1) := by
  unfold holdsAt
  rw [toNat_var]

theorem sat_clause (a : Nat → Bool) (f : List (List Int)) (cl : List Int)
    (hs : satCNF a f = true) (hm : cl ∈ f) :
    cl.any (litSat a) = true := by
  unfold satCNF at hs
  exact List.all_eq_true.mp hs cl hm

theorem mem_cnf1 (g : Grid) {cl : List Int} (h : cl ∈ rule1) :
    cl ∈ sudokuCNF g := by
  unfold sudokuCNF rules1to5
  simp [List.mem_append, h]

theorem mem_cnf2 (g : Grid) {cl : List Int} (h : cl ∈ rule2) :
    cl ∈ sudokuCNF g := by
  unfold sudokuCNF rules1to5
  simp [List.mem_append, h]

theorem mem_cnf3 (g : Grid) {cl : List Int} (h : cl ∈ rule3) :
    cl ∈ sudokuCNF g := by
  unfold sudokuCNF rules1to5
  simp [List.mem_append, h]

theorem mem_cnf4 (g : Grid) {cl : List Int} (h : cl ∈ rule4) :
    cl ∈ sudokuCNF g := by
  unfold sudokuCNF rules1to5
  simp [List.mem_append, h]

theorem mem_cnf5 (g : Grid) {cl : List Int} (h : cl ∈ rule5) :
    cl ∈ sudokuCNF g := by
  unfold sudokuCNF rules1to5
  simp [List.mem_append, h]

theorem mem_cnf6 (g : Grid) {cl : List Int} (h : cl ∈ rule6 g) :
    cl ∈ sudokuCNF g := by
  unfold sudokuCNF rules1to5
  simp [List.mem_append, h]

theorem cell_at_least (a : Nat → Bool) (g : Grid)
    (hs : satCNF a (sudokuCNF g) = true) (r c : Nat) (hr : r < 9) (hc : c < 9) :
    ∃ v, v < 9 ∧ holdsAt a r c v = true := by
  have hm : ((List.range 9).map fun v : Nat => var r c v) ∈ rule1 := by
    refine List.mem_flatMap.mpr ⟨r, List.mem_range.mpr hr, ?_⟩
    exact List.mem_map.mpr ⟨c, List.mem_range.mpr hc, rfl⟩
  have hany := sat_clause a _ _ hs (mem_cnf1 g hm)
  rw [List.any_eq_true] at hany
  obtain ⟨lit, hlit, hsat⟩ := hany
  rw [List.mem_map] at hlit
  obtain ⟨v, hv, rfl⟩ := hlit
  rw [List.mem_range] at hv
  rw [litSat_pos_var] at hsat
  exact ⟨v, hv, hsat⟩

theorem cell_at_most (a : Nat → Bool) (g : Grid)
    (hs : satCNF a (sudokuCNF g) = true) (r c v1 v2 : Nat)
    (hr : r < 9) (hc : c < 9) (hv1 : v1 < 9) (hv2 : v2 < 9) (hlt : v1 < v2)
    (h1 : holdsAt a r c v1 = true) (h2 : holdsAt a r c v2 = true) : False := by
  have hm : [-var r c v1, -var r c v2] ∈ rule2 := by
    refine List.mem_flatMap.mpr ⟨r, List.mem_range.mpr hr, ?_⟩
    refine List.mem_flatMap.mpr ⟨c, List.mem_range.mpr hc, ?_⟩
    refine List.mem_flatMap.mpr ⟨v1, List.mem_range.mpr hv1, ?_⟩
    exact List.mem_map.mpr ⟨v2, List.mem_range'_1.mpr ⟨by omega, by omega⟩, rfl⟩
  have hany := sat_clause a _ _ hs (mem_cnf2 g hm)
  simp only [List.any_cons, List.any_nil, Bool.or_false, litSat_neg_var] at hany
  rw [h1, h2] at hany
  simp at hany

theorem row_at_least (a : Nat → Bool) (g : Grid)
    (hs : satCNF a (sudokuCNF g) = true) (r v : Nat) (hr : r < 9) (hv : v < 9) :
    ∃ c, c < 9 ∧ holdsAt a r c v = true := by
  have hm : ((List.range 9).map fun c : Nat => var r c v) ∈ rule3 := by
    refine List.mem_flatMap.mpr ⟨r, List.mem_range.mpr hr, ?_⟩
    refine List.mem_flatMap.mpr ⟨v, List.mem_range.mpr hv, ?_⟩
    exact List.mem_cons_self _ _
  have hany := sat_clause a _ _ hs (mem_cnf3 g hm)
  rw [List.any_eq_true] at hany
  obtain ⟨lit, hlit, hsat⟩ := hany
  rw [List.mem_map] at hlit
  obtain ⟨c, hc, rfl⟩ := hlit
  rw [List.mem_range] at hc
  rw [litSat_pos_var] at hsat
  exact ⟨c, hc, hsat⟩

theorem row_at_most_lt (a : Nat → Bool) (g : Grid)
    (hs : satCNF a (sudokuCNF g) = true) (r v c1 c2 : Nat)
    (hr : r < 9) (hv : v < 9) (hlt : c1 < c2) (hc2 : c2 < 9)
    (h1 : holdsAt a r c1 v = true) (h2 : holdsAt a r c2 v = true) : False := by
  have hm : [-var r c1 v, -var r c2 v] ∈ rule3 := by
    refine List.mem_flatMap.mpr ⟨r, List.mem_range.mpr hr, ?_⟩
    refine List.mem_flatMap.mpr ⟨v, List.mem_range.mpr hv, ?_⟩
    refine List.mem_cons_of_mem _ ?_
    refine List.mem_flatMap.mpr ⟨c1, List.mem_range.mpr (by omega), ?_⟩
    exact List.mem_map.mpr ⟨c2, List.mem_range'_1.mpr ⟨by omega, by omega⟩, rfl⟩
  have hany := sat_clause a _ _ hs (mem_cnf3 g hm)
  simp only [List.any_cons, List.any_nil, Bool.or_false, litSat_neg_var] at hany
  rw [h1, h2] at hany
  simp at hany

theorem row_at_most (a : Nat → Bool) (g : Grid)
    (hs : satCNF a (sudokuCNF g) = true) (r v c1 c2 : Nat)
    (hr : r < 9) (hv : v < 9) (hc1 : c1 < 9) (hc2 : c2 < 9) (hne : c1 ≠ c2)
    (h1 : holdsAt a r c1 v = true) (h2 : holdsAt a r c2 v = true) : False := by
  rcases Nat.lt_or_ge c1 c2 with h | h
  · exact row_at_most_lt a g hs r v c1 c2 hr hv h hc2 h1 h2
  · exact row_at_most_lt a g hs r v c2 c1 hr hv (by omega) hc1 h2 h1

theorem col_at_least (a : Nat → Bool) (g : Grid)
    (hs : satCNF a (sudokuCNF g) = true) (c v : Nat) (hc : c < 9) (hv : v < 9) :
    ∃ r, r < 9 ∧ holdsAt a r c v = true := by
  have hm : ((List.range 9).map fun r : Nat => var r c v) ∈ rule4 := by
    refine List.mem_flatMap.mpr ⟨c, List.mem_range.mpr hc, ?_⟩
    refine List.mem_flatMap.mpr ⟨v, List.mem_range.mpr hv, ?_⟩
    exact List.mem_cons_self _ _
  have hany := sat_clause a _ _ hs (mem_cnf4 g hm)
  rw [List.any_eq_true] at hany
  obtain ⟨lit, hlit, hsat⟩ := hany
  rw [List.mem_map] at hlit
  obtain ⟨r, hrm, rfl⟩ := hlit
  rw [List.mem_range] at hrm
  rw [litSat_pos_var] at hsat
  exact ⟨r, hrm, hsat⟩

theorem col_at_most_lt (a : Nat → Bool) (g : Grid)
    (hs : satCNF a (sudokuCNF g) = true) (c v r1 r2 : Nat)
    (hc : c < 9) (hv : v < 9) (hlt : r1 < r2) (hr2 : r2 < 9)
    (h1 : holdsAt a r1 c v = true) (h2 : holdsAt a r2 c v = true) : False := by
  have hm : [-var r1 c v, -var r2 c v] ∈ rule4 := by
    refine List.mem_flatMap.mpr ⟨c, List.mem_range.mpr hc, ?_⟩
    refine List.mem_flatMap.mpr ⟨v, List.mem_range.mpr hv, ?_⟩
    refine List.mem_cons_of_mem _ ?_
    refine List.mem_flatMap.mpr ⟨r1, List.mem_range.mpr (by omega), ?_⟩
    exact List.mem_map.mpr ⟨r2, List.mem_range'_1.mpr ⟨by omega, by omega⟩, rfl⟩
  have hany := sat_clause a _ _ hs (mem_cnf4 g hm)
  simp only [List.any_cons, List.any_nil, Bool.or_false, litSat_neg_var] at hany
  rw [h1, h2] at hany
  simp at hany

theorem col_at_most (a : Nat → Bool) (g : Grid)
    (hs : satCNF a (sudokuCNF g) = true) (c v r1 r2 : Nat)
    (hc : c < 9) (hv : v < 9) (hr1 : r1 < 9) (hr2 : r2 < 9) (hne : r1 ≠ r2)
    (h1 : holdsAt a r1 c v = true) (h2 : holdsAt a r2 c v = true) : False := by
  rcases Nat.lt_or_ge r1 r2 with h | h
  · exact col_at_most_lt a g hs c v r1 r2 hc hv h hr2 h1 h2
  · exact col_at_most_lt a g hs c v r2 r1 hc hv (by omega) hr1 h2 h1

theorem cell_bounds (g : Grid) (h9 : grid9x9 g) (hv : gridValsOk g)
    (r c : Nat) (hr : r < 9) (hc : c < 9) :
    0 ≤ cell g r c ∧ cell g r c ≤ 9 := by
  obtain ⟨hg1, hg2⟩ := h9
  have hrow : g.getD r [] ∈ g := getD_mem_of_lt g r [] (by omega)
  have hlen : (g.getD r []).length = 9 := hg2 _ hrow
  have hcm : (g.getD r []).getD c 0 ∈ g.getD r [] :=
    getD_mem_of_lt _ c 0 (by omega)
  exact hv _ hrow _ hcm

/-- Claim C4: a 9x9 grid with two equal non-zero clues in the same row
yields an unsatisfiable formula, so the solve operation (with any sound
solver adapter) returns the no-solution result. -/
theorem c4_duplicate_row_clue_unsat (g : Grid) (h9 : grid9x9 g)
    (hv : gridValsOk g) (r c1 c2 : Nat) (hr : r < 9) (hc1 : c1 < 9)
    (hc2 : c2 < 9) (hne : c1 ≠ c2) (heq : cell g r c1 = cell g r c2)
    (hnz : cell g r c1 ≠ 0) :
    (∀ a, satCNF a (sudokuCNF g) = false) ∧
      ∀ oracle, oracleSound oracle → solveSudoku oracle g = none := by
  have hunsat : ∀ a, satCNF a (sudokuCNF g) = false := by
    intro a
    cases hcase : satCNF a (sudokuCNF g) with
    | false => rfl
    | true =>
      exfalso
      obtain ⟨hge, hle⟩ := cell_bounds g h9 hv r c1 hr hc1
      have hveq : (((cell g r c1 - 1).toNat : Nat) : Int) = cell g r c1 - 1 := by
        omega
      have hveq2 : (((cell g r c1 - 1).toNat : Nat) : Int) = cell g r c2 - 1 := by
        rw [← heq]
        omega
      have hv9 : (cell g r c1 - 1).toNat < 9 := by omega
      have hm1 := mem_cnf6 g (mem_rule6 g r c1 hr hc1 hnz)
      have hm2 := mem_cnf6 g (mem_rule6 g r c2 hr hc2 (by rw [← heq]; exact hnz))
      have hs1 := sat_clause a _ _ hcase hm1
      have hs2 := sat_clause a _ _ hcase hm2
      simp only [List.any_cons, List.any_nil, Bool.or_false] at hs1 hs2
      rw [← hveq, litSat_pos_var] at hs1
      rw [← hveq2, litSat_pos_var] at hs2
      exact row_at_most a g hcase r ((cell g r c1 - 1).toNat) c1 c2 hr hv9
        hc1 hc2 hne hs1 hs2
  refine ⟨hunsat, ?_⟩
  intro oracle hsound
  unfold solveSudoku
  cases hor : oracle (sudokuCNF g) with
  | none => rfl
  | some a =>
    have := hsound _ _ hor
    rw [hunsat a] at this
    cases this

theorem boxCells_eq (br bc v : Nat) :
    boxCells br bc v =
      [var (br * 3) (bc * 3) v, var (br * 3) (bc * 3 + 1) v,
       var (br * 3) (bc * 3 + 2) v, var (br * 3 + 1) (bc * 3) v,
       var (br * 3 + 1) (bc * 3 + 1) v, var (br * 3 + 1) (bc * 3 + 2) v,
       var (br * 3 + 2) (bc * 3) v, var (br * 3 + 2) (bc * 3 + 1) v,
       var (br * 3 + 2) (bc * 3 + 2) v] := by
  rfl

theorem boxCells_length (br bc v : Nat) : (boxCells br bc v).length = 9 := by
  rw [boxCells_eq]
  rfl

theorem boxCells_getD (br bc v k : Nat) (hk : k < 9) :
    (boxCells br bc v).getD k 0
      = var ((br * 3 + k / 3 : Nat) : Int) ((bc * 3 + k % 3 : Nat) : Int) v := by
  rw [boxCells_eq]
  interval_cases k <;> simp

theorem box_at_least (a : Nat → Bool) (g : Grid)
    (hs : satCNF a (sudokuCNF g) = true) (br bc v : Nat)
    (hbr : br < 3) (hbc : bc < 3) (hv : v < 9) :
    ∃ k, k < 9 ∧ holdsAt a (br * 3 + k / 3) (bc * 3 + k % 3) v = true := by
  have hm : boxCells br bc v ∈ rule5 := by
    refine List.mem_flatMap.mpr ⟨br, List.mem_range.mpr hbr, ?_⟩
    refine List.mem_flatMap.mpr ⟨bc, List.mem_range.mpr hbc, ?_⟩
    refine List.mem_flatMap.mpr ⟨v, List.mem_range.mpr hv, ?_⟩
    exact List.mem_cons_self _ _
  have hany := sat_clause a _ _ hs (mem_cnf5 g hm)
  rw [List.any_eq_true] at hany
  obtain ⟨lit, hlit, hsat⟩ := hany
  rw [boxCells] at hlit
  rw [List.mem_flatMap] at hlit
  obtain ⟨r2, hr2, hlit⟩ := hlit
  rw [List.mem_map] at hlit
  obtain ⟨c2, hc2, rfl⟩ := hlit
  rw [List.mem_range'_1] at hr2 hc2
  refine ⟨(r2 - br * 3) * 3 + (c2 - bc * 3), by omega, ?_⟩
  have h1 : br * 3 + ((r2 - br * 3) * 3 + (c2 - bc * 3)) / 3 = r2 := by omega
  have h2 : bc * 3 + ((r2 - br * 3) * 3 + (c2 - bc * 3)) % 3 = c2 := by omega
  rw [litSat_pos_var] at hsat
  rw [h1, h2]
  exact hsat

theorem box_at_most_lt (a : Nat → Bool) (g : Grid)
    (hs : satCNF a (sudokuCNF g) = true) (br bc v k1 k2 : Nat)
    (hbr : br < 3) (hbc : bc < 3) (hv : v < 9) (hlt : k1 < k2) (hk2 : k2 < 9)
    (h1 : holdsAt a (br * 3 + k1 / 3) (bc * 3 + k1 % 3) v = true)
    (h2 : holdsAt a (br * 3 + k2 / 3) (bc * 3 + k2 % 3) v = true) : False := by
  have hm : [-(boxCells br bc v).getD k1 0, -(boxCells br bc v).getD k2 0]
      ∈ rule5 := by
    refine List.mem_flatMap.mpr ⟨br, List.mem_range.mpr hbr, ?_⟩
    refine List.mem_flatMap.mpr ⟨bc, List.mem_range.mpr hbc, ?_⟩
    refine List.mem_flatMap.mpr ⟨v, List.mem_range.mpr hv, ?_⟩
    refine List.mem_cons_of_mem _ ?_
    refine List.mem_flatMap.mpr ⟨k1,
      List.mem_range.mpr (by rw [boxCells_length]; omega), ?_⟩
    refine List.mem_map.mpr ⟨k2,
      List.mem_range'_1.mpr ⟨by omega, by rw [boxCells_length]; omega⟩, rfl⟩
  have hany := sat_clause a _ _ hs (mem_cnf5 g hm)
  rw [boxCells_getD br bc v k1 (by omega), boxCells_getD br bc v k2 hk2] at hany
  simp only [List.any_cons, List.any_nil, Bool.or_false, litSat_neg_var] at hany
  rw [h1, h2] at hany
  simp at hany

theorem box_at_most (a : Nat → Bool) (g : Grid)
    (hs : satCNF a (sudokuCNF g) = true) (br bc v k1 k2 : Nat)
    (hbr : br < 3) (hbc : bc < 3) (hv : v < 9) (hk1 : k1 < 9) (hk2 : k2 < 9)
    (hne : k1 ≠ k2)
    (h1 : holdsAt a (br * 3 + k1 / 3) (bc * 3 + k1 % 3) v = true)
    (h2 : holdsAt a (br * 3 + k2 / 3) (bc * 3 + k2 % 3) v = true) : False := by
  rcases Nat.lt_or_ge k1 k2 with h | h
  · exact box_at_most_lt a g hs br bc v k1 k2 hbr hbc hv h hk2 h1 h2
  · exact box_at_most_lt a g hs br bc v k2 k1 hbr hbc hv (by omega) hk1 h2 h1

theorem emptySol_9x9 : grid9x9 emptySol := by decide

theorem grid9x9_setCell (g : Grid) (h9 : grid9x9 g) (r c : Nat) (hr : r < 9)
    (x : Int) : grid9x9 (setCell g r c x) := by
  obtain ⟨h1, h2⟩ := h9
  constructor
  · rw [setCell, List.length_set, h1]
  · intro row hrow
    rcases List.mem_or_eq_of_mem_set hrow with h | h
    · exact h2 _ h
    · subst h
      rw [List.length_set]
      exact h2 _ (getD_mem_of_lt g r [] (by omega))

theorem grid9x9_decodeStep (sol : Grid) (h9 : grid9x9 sol) (lit : Int)
    (hle : lit ≤ 729) : grid9x9 (decodeStep sol lit) := by
  unfold decodeStep
  by_cases hpos : 0 < lit
  · rw [if_pos hpos]
    apply grid9x9_setCell sol h9
    show (lit.toNat - 1) / 81 < 9
    omega
  · rw [if_neg hpos]
    exact h9

theorem grid9x9_foldl (L : List Int) (sol : Grid) (h9 : grid9x9 sol)
    (hL : ∀ lit ∈ L, lit ≤ 729) : grid9x9 (L.foldl decodeStep sol) := by
  induction L generalizing sol with
  | nil => exact h9
  | cons lit t ih =>
    rw [List.foldl_cons]
    exact ih _ (grid9x9_decodeStep sol h9 lit (hL lit (List.mem_cons_self _ _)))
      fun l hl => hL l (List.mem_cons_of_mem _ hl)

theorem cell_foldl_frame (L : List Int) (sol : Grid) (r c : Nat)
    (h : ∀ lit ∈ L, 0 < lit →
      ¬((lit.toNat - 1) / 81 = r ∧ ((lit.toNat - 1) % 81) / 9 = c)) :
    cell (L.foldl decodeStep sol) r c = cell sol r c := by
  induction L generalizing sol with
  | nil => rfl
  | cons lit t ih =>
    rw [List.foldl_cons, ih _ fun l hl => h l (List.mem_cons_of_mem _ hl)]
    unfold decodeStep
    by_cases hpos : 0 < lit
    · rw [if_pos hpos]
      apply cell_setCell_other
      have hn := h lit (List.mem_cons_self _ _) hpos
      rcases Decidable.em ((lit.toNat - 1) / 81 = r) with hA | hA
      · right
        intro hB
        exact hn ⟨hA, hB⟩
      · left
        exact hA
    · rw [if_neg hpos]

/-- The cell written by the decoding loop is the last value-literal of that
cell that the assignment makes true: if v0 is true at (r, c) and no larger
value is, then decoding leaves v0 + 1 in that cell. -/
theorem decode_last (a : Nat → Bool) (r c v0 : Nat) (hr : r < 9) (hc : c < 9)
    (hv0 : v0 < 9) (hT : holdsAt a r c v0 = true)
    (hO : ∀ v, v < 9 → holdsAt a r c v = true → v ≤ v0) :
    cell (decode (modelOf a)) r c = ((v0 + 1 : Nat) : Int) := by
  set i0 := r * 81 + c * 9 + v0 with hi0def
  have hle728 : i0 ≤ 728 := by omega
  have hT2 : a (i0 + 1) = true := by
    rw [holdsAt_eq] at hT
    rw [show i0 + 1 = r * 81 + c * 9 + v0 + 1 from by omega]
    exact hT
  have hsplit : List.range' 0 729
      = List.range' 0 i0 ++ i0 :: List.range' (i0 + 1) (728 - i0) := by
    have h1 := List.range'_append 0 i0 (729 - i0) 1
    have h2 : (729 - i0) + i0 = 729 := by omega
    have h3 : 0 + 1 * i0 = i0 := by omega
    have h4 : 729 - i0 = (728 - i0) + 1 := by omega
    rw [h2, h3, h4, List.range'_succ] at h1
    exact h1.symm
  have hmodel : modelOf a = (List.range' 0 i0).map (modelLit a)
      ++ modelLit a i0 :: (List.range' (i0 + 1) (728 - i0)).map (modelLit a) := by
    rw [modelOf, List.range_eq_range', hsplit, List.map_append, List.map_cons]
  have hbound1 : ∀ lit ∈ (List.range' 0 i0).map (modelLit a), lit ≤ 729 := by
    intro lit hlit
    rw [List.mem_map] at hlit
    obtain ⟨i, hi, rfl⟩ := hlit
    rw [List.mem_range'_1] at hi
    unfold modelLit
    split <;> omega
  have hsol1 : grid9x9 (((List.range' 0 i0).map (modelLit a)).foldl
      decodeStep emptySol) :=
    grid9x9_foldl _ _ emptySol_9x9 hbound1
  have hlit0 : modelLit a i0 = ((i0 + 1 : Nat) : Int) := by
    unfold modelLit
    rw [if_pos hT2]
  have hwrite : ∀ sol : Grid, decodeStep sol ((i0 + 1 : Nat) : Int)
      = setCell sol r c ((v0 + 1 : Nat) : Int) := by
    intro sol
    unfold decodeStep unvar
    rw [if_pos (by omega : (0 : Int) < ((i0 + 1 : Nat) : Int))]
    have ht : ((i0 + 1 : Nat) : Int).toNat = i0 + 1 := by omega
    simp only [ht]
    have e1 : (i0 + 1 - 1) / 81 = r := by omega
    have e2 : ((i0 + 1 - 1) % 81) / 9 = c := by omega
    have e3 : (i0 + 1 - 1) % 9 = v0 := by omega
    rw [e1, e2, e3]
  have hframe : ∀ lit ∈ (List.range' (i0 + 1) (728 - i0)).map (modelLit a),
      0 < lit →
      ¬((lit.toNat - 1) / 81 = r ∧ ((lit.toNat - 1) % 81) / 9 = c) := by
    intro lit hlit hpos
    rw [List.mem_map] at hlit
    obtain ⟨i, hi, rfl⟩ := hlit
    rw [List.mem_range'_1] at hi
    by_cases hai : a (i + 1) = true
    · rintro ⟨e1, e2⟩
      have htn : (modelLit a i).toNat = i + 1 := by
        unfold modelLit
        rw [if_pos hai]
        omega
      rw [htn] at e1 e2
      have hv9 : i % 9 < 9 := Nat.mod_lt _ (by omega)
      have hhold : holdsAt a r c (i % 9) = true := by
        rw [holdsAt_eq]
        have hieq : r * 81 + c * 9 + i % 9 + 1 = i + 1 := by omega
        rw [hieq]
        exact hai
      have := hO (i % 9) hv9 hhold
      omega
    · exfalso
      unfold modelLit at hpos
      rw [if_neg hai] at hpos
      omega
  unfold decode
  rw [hmodel, List.foldl_append, List.foldl_cons, hlit0, hwrite,
    cell_foldl_frame _ _ r c hframe]
  apply cell_setCell_self
  · rw [hsol1.1]
    omega
  · rw [hsol1.2 _ (getD_mem_of_lt _ r [] (by rw [hsol1.1]; omega))]
    omega

/-- Claim C1: for a 9x9 grid of clues in [0,9], every assignment satisfying
the CNF formula of rules 1-6, decoded by the model-decoding loop
(each true variable id mapped back to (row, col, value) and
solution[row][col] = value + 1), yields a grid in which every row, column
and 3x3 box contains each of 1..9 exactly once and every non-zero clue cell
keeps its clue value. -/
theorem c1_solution_valid (g : Grid) (h9 : grid9x9 g) (hv : gridValsOk g)
    (a : Nat → Bool) (hs : satCNF a (sudokuCNF g) = true) :
    validSolution (decode (modelOf a)) ∧ cluesKept g (decode (modelOf a)) := by
  have huniq : ∀ r c, r < 9 → c < 9 → ∃ v, v < 9 ∧ holdsAt a r c v = true ∧
      ∀ w, w < 9 → holdsAt a r c w = true → w = v := by
    intro r c hr hc
    obtain ⟨v, hv9, hvt⟩ := cell_at_least a g hs r c hr hc
    refine ⟨v, hv9, hvt, ?_⟩
    intro w hw9 hwt
    by_contra hne
    rcases Nat.lt_or_ge w v with h | h
    · exact cell_at_most a g hs r c w v hr hc hw9 hv9 h hwt hvt
    · exact cell_at_most a g hs r c v w hr hc hv9 hw9 (by omega) hvt hwt
  have hcell : ∀ r c, r < 9 → c < 9 → ∀ v, v < 9 → holdsAt a r c v = true →
      cell (decode (modelOf a)) r c = ((v + 1 : Nat) : Int) := by
    intro r c hr hc v hv9 hvt
    obtain ⟨v0, hv09, hv0t, hv0u⟩ := huniq r c hr hc
    have hvv0 : v = v0 := hv0u v hv9 hvt
    subst hvv0
    exact decode_last a r c v hr hc hv9 hvt
      fun w hw9 hwt => le_of_eq (hv0u w hw9 hwt)
  have hcellrev : ∀ r c v, r < 9 → c < 9 → v < 9 →
      cell (decode (modelOf a)) r c = ((v + 1 : Nat) : Int) →
      holdsAt a r c v = true := by
    intro r c v hr hc hv9 hcv
    obtain ⟨v0, hv09, hv0t, hv0u⟩ := huniq r c hr hc
    have hc0 := hcell r c hr hc v0 hv09 hv0t
    rw [hc0] at hcv
    have hveq : v0 = v := by omega
    subst hveq
    exact hv0t
  have hcast : ∀ v : Nat, ((v + 1 : Nat) : Int) = (v : Int) + 1 := by
    intro v
    push_cast
    ring
  constructor
  · refine ⟨?_, ?_, ?_⟩
    · intro r hr v hv9
      obtain ⟨c1, hc1, hc1t⟩ := row_at_least a g hs r v hr hv9
      apply countP_one_of_unique _ _ c1 (List.nodup_range 9)
        (List.mem_range.mpr hc1)
      · simp only [decide_eq_true_eq]
        rw [hcell r c1 hr hc1 v hv9 hc1t, hcast]
      · intro x hx hpx
        rw [List.mem_range] at hx
        simp only [decide_eq_true_eq] at hpx
        have hhx : holdsAt a r x v = true := by
          apply hcellrev r x v hr hx hv9
          rw [hcast]
          exact hpx
        by_contra hne
        exact row_at_most a g hs r v x c1 hr hv9 hx hc1 hne hhx hc1t
    · intro c hc v hv9
      obtain ⟨r1, hr1, hr1t⟩ := col_at_least a g hs c v hc hv9
      apply countP_one_of_unique _ _ r1 (List.nodup_range 9)
        (List.mem_range.mpr hr1)
      · simp only [decide_eq_true_eq]
        rw [hcell r1 c hr1 hc v hv9 hr1t, hcast]
      · intro x hx hpx
        rw [List.mem_range] at hx
        simp only [decide_eq_true_eq] at hpx
        have hhx : holdsAt a x c v = true := by
          apply hcellrev x c v hx hc hv9
          rw [hcast]
          exact hpx
        by_contra hne
        exact col_at_most a g hs c v x r1 hc hv9 hx hr1 hne hhx hr1t
    · intro br hbr bc hbc v hv9
      obtain ⟨k1, hk1, hk1t⟩ := box_at_least a g hs br bc v hbr hbc hv9
      apply countP_one_of_unique _ _ k1 (List.nodup_range 9)
        (List.mem_range.mpr hk1)
      · simp only [decide_eq_true_eq]
        have hrr : br * 3 + k1 / 3 < 9 := by omega
        have hcc : bc * 3 + k1 % 3 < 9 := by omega
        rw [hcell _ _ hrr hcc v hv9 hk1t, hcast]
      · intro x hx hpx
        rw [List.mem_range] at hx
        simp only [decide_eq_true_eq] at hpx
        have hrr : br * 3 + x / 3 < 9 := by omega
        have hcc : bc * 3 + x % 3 < 9 := by omega
        have hhx : holdsAt a (br * 3 + x / 3) (bc * 3 + x % 3) v = true := by
          apply hcellrev _ _ v hrr hcc hv9
          rw [hcast]
          exact hpx
        by_contra hne
        exact box_at_most a g hs br bc v x k1 hbr hbc hv9 hx hk1 hne hhx hk1t
  · intro r hr c hc hnz
    obtain ⟨hge, hle⟩ := cell_bounds g h9 hv r c hr hc
    have hm := mem_cnf6 g (mem_rule6 g r c hr hc hnz)
    have hs1 := sat_clause a _ _ hs hm
    simp only [List.any_cons, List.any_nil, Bool.or_false] at hs1
    have hveq : (((cell g r c - 1).toNat : Nat) : Int) = cell g r c - 1 := by
      omega
    rw [← hveq, litSat_pos_var] at hs1
    have hv9 : (cell g r c - 1).toNat < 9 := by omega
    rw [hcell r c hr hc _ hv9 hs1]
    omega

/-- Counterexample to claim C5: under the assignment making both
value-literals 1 = var(0,0,0) and 2 = var(0,0,1) true, the decoder writes
cell (0, 0) twice and raises no error: it silently returns a grid whose
cell (0, 0) holds the later value 2, the first write having been
overwritten. -/
theorem c5_counterexample :
    cell (decode (modelOf fun n => n == 1 || n == 2)) 0 0 = 2 ∧
      unvar 1 = (0, 0, 0) ∧ unvar 2 = (0, 0, 1) := by
  refine ⟨by decide, by decide, by decide⟩

/-- Claim C5 (amended): the decoder performs no consistency check: for any
cell (r, c) and values v1 < v2 in [0,8], decoding the assignment that makes
exactly the two value-literals var(r,c,v1) and var(r,c,v2) true silently
keeps the later write, leaving v2 + 1 in the cell; no Inconsistent-Model
error exists anywhere in the code. -/
theorem c5_silent_overwrite (r c v1 v2 : Nat) (hr : r < 9) (hc : c < 9)
    (hv1 : v1 < 9) (hv2 : v2 < 9) (hlt : v1 < v2) :
    cell (decode (modelOf fun n =>
      n == (var r c v1).toNat || n == (var r c v2).toNat)) r c
      = ((v2 + 1 : Nat) : Int) := by
  apply decode_last _ r c v2 hr hc hv2
  · unfold holdsAt
    simp
  · intro w hw9 hwt
    unfold holdsAt at hwt
    simp only [Bool.or_eq_true, beq_iff_eq] at hwt
    rcases hwt with h | h
    · rw [toNat_var, toNat_var] at h
      omega
    · rw [toNat_var, toNat_var] at h
      omega

/-- Witness for C5 (amended) at cell (0,0) with values 0 < 1. -/
theorem c5_silent_overwrite_witness :
    cell (decode (modelOf fun n =>
      n == (var 0 0 0).toNat || n == (var 0 0 1).toNat)) 0 0
      = ((1 + 1 : Nat) : Int) :=
  c5_silent_overwrite 0 0 0 1 (by decide) (by decide) (by decide) (by decide)
    (by decide)

theorem rules1to5_lits_bounded :
    (rules1to5.all fun cl => cl.all fun lit =>
      decide (1 ≤ lit.natAbs ∧ lit.natAbs ≤ 729)) = true := by
  rw [rules1to5]
  simp only [List.all_append, rule1, rule2, rule3, rule4, rule5,
    List.all_flatMap, List.all_cons]
  decide

/-- Claim C10: every literal of every clause the encoder emits for a valid
grid has magnitude in [1, 729], and on any positive literal of such
magnitude the decoder's index computations give row and column in [0, 8],
so every decoding write is inside the 9x9 solution grid. -/
theorem c10_literals_in_range (g : Grid) (h9 : grid9x9 g)
    (hv : gridValsOk g) :
    (∀ cl ∈ sudokuCNF g, ∀ lit ∈ cl, 1 ≤ lit.natAbs ∧ lit.natAbs ≤ 729) ∧
      ∀ lit : Int, 0 < lit → lit.natAbs ≤ 729 →
        (unvar lit).1 < 9 ∧ (unvar lit).2.1 < 9 := by
  constructor
  · intro cl hcl lit hlit
    rw [sudokuCNF, List.mem_append] at hcl
    rcases hcl with hcl | hcl
    · have hb := rules1to5_lits_bounded
      rw [List.all_eq_true] at hb
      have hb2 := hb cl hcl
      rw [List.all_eq_true] at hb2
      exact of_decide_eq_true (hb2 lit hlit)
    · obtain ⟨r, c, hr, hc, hnz, rfl⟩ := rule6_mem_dest g cl hcl
      rw [List.mem_singleton] at hlit
      subst hlit
      obtain ⟨hge, hle⟩ := cell_bounds g h9 hv r c hr hc
      unfold var
      constructor <;> omega
  · intro lit hpos hle
    constructor
    · show (lit.toNat - 1) / 81 < 9
      omega
    · show ((lit.toNat - 1) % 81) / 9 < 9
      omega

/-- Witness for C10: the empty grid's first clause and its first literal,
and the decoder index computation at the largest id 729. -/
theorem c10_literals_in_range_witness :
    (1 ≤ (var 0 0 0).natAbs ∧ (var 0 0 0).natAbs ≤ 729) ∧
      ((unvar 729).1 < 9 ∧ (unvar 729).2.1 < 9) :=
  ⟨(c10_literals_in_range emptyGrid (by decide) (by decide)).1
      ((List.range 9).map fun v : Nat => var 0 0 v) (by decide)
      (var 0 0 0) (by decide),
    (c10_literals_in_range emptyGrid (by decide) (by decide)).2 729
      (by decide) (by decide)⟩

theorem satCNF_append (a : Nat → Bool) (A B : List (List Int)) :
    satCNF a (A ++ B) = (satCNF a A && satCNF a B) := by
  unfold satCNF
  rw [List.all_append]

theorem satCNF_flatMap {α : Type} (a : Nat → Bool) (L : List α)
    (f : α → List (List Int)) :
    satCNF a (L.flatMap f) = L.all fun x => satCNF a (f x) := by
  unfold satCNF
  rw [List.all_flatMap]

theorem satCNF_cons (a : Nat → Bool) (cl : List Int) (F : List (List Int)) :
    satCNF a (cl :: F) = (cl.any (litSat a) && satCNF a F) := by
  unfold satCNF
  rw [List.all_cons]

theorem baseAssign_sat_rules : satCNF baseAssign rules1to5 = true := by
  rw [rules1to5]
  simp only [satCNF_append, rule1, rule2, rule3, rule4, rule5,
    satCNF_flatMap, satCNF_cons]
  decide

theorem baseAssign_sat_cnf :
    satCNF baseAssign (sudokuCNF emptyGrid) = true := by
  rw [sudokuCNF, satCNF_append, baseAssign_sat_rules]
  rw [show rule6 emptyGrid = [] from by decide]
  rfl

/-- Witness for C1: the empty grid with the concrete satisfying assignment
baseAssign. -/
theorem c1_solution_valid_witness :
    satCNF baseAssign (sudokuCNF emptyGrid) = true ∧
      validSolution (decode (modelOf baseAssign)) ∧
        cluesKept emptyGrid (decode (modelOf baseAssign)) :=
  ⟨baseAssign_sat_cnf,
    c1_solution_valid emptyGrid (by decide) (by decide) baseAssign
      baseAssign_sat_cnf⟩

/-- Witness for C3 at the empty grid. -/
theorem c3_clause_count_witness :
    grid9x9 emptyGrid ∧
      (sudokuCNF emptyGrid).length = 11988 + numNonZero emptyGrid :=
  ⟨by decide, (c3_clause_count emptyGrid (by decide)).2.1⟩

/-- Witness for C4: the concrete grid with two 5s in row 0, solved through
the trivially sound always-UNSAT oracle. -/
theorem c4_duplicate_row_clue_unsat_witness :
    satCNF (fun _ => true) (sudokuCNF gDup) = false ∧
      solveSudoku (fun _ => none) gDup = none :=
  ⟨(c4_duplicate_row_clue_unsat gDup (by decide) (by decide) 0 0 1
      (by decide) (by decide) (by decide) (by decide) (by decide)
      (by decide)).1 _,
    (c4_duplicate_row_clue_unsat gDup (by decide) (by decide) 0 0 1
      (by decide) (by decide) (by decide) (by decide) (by decide)
      (by decide)).2 _ fun _ _ h => Option.noConfusion h⟩
